import Mathlib

/-!
Verification of the easyftpd FTP server core (src/easy_ftpd/lib/ftpserver.py)
against its natural-language specification.

Paths and protocol strings are modelled as lists of characters; the host is
modelled as POSIX (os.sep is the slash, os.linesep is the line feed), which is
the reference platform of the spec.  Filesystem and socket effects are passed
in as explicit parameters (for example a symlink-resolution function standing
for os.path.realpath, or the result of os.listdir), so every definition is a
pure, executable translation of the corresponding Python code.
-/

namespace Ftpd

/-- Model of AbstractedFS.validpath (ftpserver.py lines 1023-1038), with the
symlink resolver os.path.realpath passed in as the function resolve.  The
translation keeps the source's exact flow: both the root and the candidate
path are resolved, but the comparison root is rebuilt from the UNRESOLVED
self.root whenever self.root does not already end with os.sep, discarding the
resolved value computed on the first line. -/
def validpath (resolve : List Char → List Char) (selfRoot path : List Char) : Bool :=
  let root := resolve selfRoot
  let path := resolve path
  let root := if ¬ (selfRoot.getLast? = some '/') then selfRoot ++ ['/'] else root
  let path := if ¬ (path.getLast? = some '/') then path ++ ['/'] else path
  decide (path.take root.length = root)

/-- Modelled from the spec (section 4.1, containment predicate): resolve
symlinks in both root and p, append a trailing separator to each, and return
true iff the resolved p begins with the resolved root followed by the
separator.  This is the claim's reading, kept for comparison with the code. -/
def validpathResolvedRoot (resolve : List Char → List Char) (selfRoot path : List Char) :
    Bool :=
  let root := resolve selfRoot ++ ['/']
  let path := resolve path ++ ['/']
  root.isPrefixOf path

/-- Concrete symlink table for the failing input: /tmp/link is a symbolic link
to /data, so realpath maps /tmp/link to /data and /tmp/link/file to
/data/file; every other path is already fully resolved. -/
def resolveLinkTable (p : List Char) : List Char :=
  if p = "/tmp/link".toList then ("/data".toList)
  else if p = "/tmp/link/file".toList then ("/data/file".toList)
  else p

/-- C1: the claim says the root used for the prefix comparison is the
symlink-resolved root.  The code resolves the root and then throws the result
away (the branch on self.root.endswith(os.sep) rebuilds the comparison root
from the unresolved self.root), so when the session root is itself a symbolic
link every contained path is rejected: with root /tmp/link resolving to /data,
the candidate /tmp/link/file resolves to /data/file, which the spec's
predicate accepts but the code's predicate rejects. -/
theorem c1_validpath_uses_unresolved_root :
    validpath resolveLinkTable ("/tmp/link".toList) ("/tmp/link/file".toList) = false ∧
    validpathResolvedRoot resolveLinkTable ("/tmp/link".toList) ("/tmp/link/file".toList)
      = true := by
  constructor <;> rfl

/-- Per-session protocol-interpreter state, the fields of FTPHandler.__init__
(ftpserver.py lines 1295-1316) touched by USER, REIN, ABOR and the account
flush, together with the AbstractedFS fields cwd, root and rnfr (lines
818-821).  The data channel is abstracted by its transferred byte count
(tot_bytes_sent + tot_bytes_received, the quantity read by
transfer_in_progress); the data server by its existence. -/
structure Session where
  authenticated : Bool
  username : String
  attempted_logins : Nat
  current_type : Char
  restart_position : Nat
  quit_pending : Bool
  in_dtp_queue : Bool
  out_dtp_queue : Bool
  data_server : Bool
  data_channel : Option Nat
  fs_cwd : String
  fs_root : String
  fs_rnfr : Option String
  deriving DecidableEq

/-- Model of DTPHandler.transfer_in_progress (lines 602-604): true iff the
total of transmitted bytes is nonzero. -/
def transfer_in_progress (bytes : Nat) : Bool :=
  bytes ≠ 0

/-- Model of FTPHandler.flush_account (lines 1604-1624).  The data channel is
closed only when no transfer is in progress; the data server is always closed;
the listed account attributes are reset.  Neither fs.cwd nor fs.root is
touched by the source. -/
def flush_account (s : Session) : Session :=
  let s :=
    match s.data_channel with
    | some bytes => if ¬ transfer_in_progress bytes then { s with data_channel := none } else s
    | none => s
  let s := { s with data_server := false }
  { s with
    fs_rnfr := none
    authenticated := false
    username := ""
    attempted_logins := 0
    current_type := 'a'
    restart_position := 0
    quit_pending := false
    in_dtp_queue := false
    out_dtp_queue := false }

/-- Model of FTPHandler.ftp_REIN (lines 2137-2150): flush the account, then
reply 230.  Returns the new session state and the replies sent, in order. -/
def ftp_REIN (s : Session) : Session × List String :=
  (flush_account s, ["230 Ready for new user."])

/-- A concrete session amid a download: authenticated, working directory
/sub, an open data channel that has already moved 5 bytes. -/
def sessionMidTransfer : Session :=
  { authenticated := true
    username := "alice"
    attempted_logins := 0
    current_type := 'i'
    restart_position := 0
    quit_pending := false
    in_dtp_queue := false
    out_dtp_queue := false
    data_server := false
    data_channel := some 5
    fs_cwd := "/sub"
    fs_root := "/home/alice"
    fs_rnfr := none }

/-- C3 counterexample: after REIN on a session whose working directory is /sub
and whose data channel has transferred 5 bytes, the working directory is still
/sub (not the slash the claim requires) and the data channel is still
attached, refuting the claim that every REIN leaves cwd at the root and no
data-transfer endpoint attached. -/
theorem c3_rein_counterexample :
    (ftp_REIN sessionMidTransfer).1.fs_cwd = "/sub" ∧
    (ftp_REIN sessionMidTransfer).1.data_channel = some 5 := by
  constructor <;> rfl

/-- C3 amended: after REIN the session is unauthenticated with username
cleared, type ASCII, restart position 0, rnfr source cleared, no data server
and no queued transfer, and the reply is 230; but the working directory is
left unchanged, and the data channel is closed only when no transfer is in
progress (a channel that has moved bytes stays attached). -/
theorem c3_rein_flushes_account_keeps_cwd_and_live_transfer (s : Session) :
    (ftp_REIN s).1.authenticated = false ∧
    (ftp_REIN s).1.username = "" ∧
    (ftp_REIN s).1.current_type = 'a' ∧
    (ftp_REIN s).1.restart_position = 0 ∧
    (ftp_REIN s).1.fs_rnfr = none ∧
    (ftp_REIN s).1.data_server = false ∧
    (ftp_REIN s).1.in_dtp_queue = false ∧
    (ftp_REIN s).1.out_dtp_queue = false ∧
    (ftp_REIN s).1.fs_cwd = s.fs_cwd ∧
    (ftp_REIN s).1.data_channel = (if s.data_channel = some 0 then none else s.data_channel) ∧
    (ftp_REIN s).2 = ["230 Ready for new user."] := by
  refine ⟨rfl, rfl, rfl, rfl, rfl, rfl, rfl, rfl, ?_, ?_, rfl⟩ <;>
    rcases s with ⟨_, _, _, _, _, _, _, _, _, ch, _, _, _⟩ <;>
    rcases ch with _ | b
  case _ => rfl
  case _ =>
    rcases b with _ | b <;> simp [ftp_REIN, flush_account, transfer_in_progress]
  case _ => rfl
  case _ =>
    rcases b with _ | b <;> simp [ftp_REIN, flush_account, transfer_in_progress]

/-- Model of FTPHandler.ftp_ABOR (lines 2023-2055).  Returns the new session
state and the control replies in the order they are sent: a 426 emitted inside
the transfer-in-progress branch precedes the final respond(resp). -/
def ftp_ABOR (s : Session) : Session × List String :=
  if s.data_server = false ∧ s.data_channel = none then
    (s, ["225 No transfer to abort."])
  else
    match s.data_channel with
    | some bytes =>
      if transfer_in_progress bytes then
        ({ s with data_server := false, data_channel := none },
          ["426 Connection closed; transfer aborted.", "226 ABOR command successful."])
      else
        ({ s with data_server := false, data_channel := none },
          ["225 ABOR command successful; data channel closed."])
    | none =>
      ({ s with data_server := false },
        ["225 ABOR command successful; data channel closed."])

/-- Modelled from the spec (the claim's four ABOR cases): no endpoint at all,
a data server with no peer, an open channel that has moved at least one byte,
and an open channel that has moved none. -/
def aborRepliesOfClaim (s : Session) : List String :=
  match s.data_server, s.data_channel with
  | false, none => ["225 No transfer to abort."]
  | true, none => ["225 ABOR command successful; data channel closed."]
  | _, some bytes =>
    if 1 ≤ bytes then
      ["426 Connection closed; transfer aborted.", "226 ABOR command successful."]
    else
      ["225 ABOR command successful; data channel closed."]

/-- C7: ABOR replies exactly as the claim's case analysis prescribes, and in
every case the handler leaves the session with no data server and no data
channel attached. -/
theorem c7_abor_matches_claim (s : Session) :
    (ftp_ABOR s).2 = aborRepliesOfClaim s ∧
    (ftp_ABOR s).1.data_server = false ∧
    (ftp_ABOR s).1.data_channel = none := by
  rcases s with ⟨_, _, _, _, _, _, _, _, ds, ch, _, _, _⟩
  rcases ds <;> rcases ch with _ | b
  case _ => exact ⟨rfl, rfl, rfl⟩
  case _ =>
    rcases b with _ | b <;>
      simp [ftp_ABOR, aborRepliesOfClaim, transfer_in_progress]
  case _ => exact ⟨rfl, rfl, rfl⟩
  case _ =>
    rcases b with _ | b <;>
      simp [ftp_ABOR, aborRepliesOfClaim, transfer_in_progress]

/-- Model of the username normalization at the top of FTPHandler.ftp_USER
(lines 2062-2064): the anonymous user is always treated as the lower-case
string. -/
def normalizeUsername (line : String) : String :=
  if line.toLower = "anonymous" then ("anonymous") else line

/-- Model of FTPHandler.ftp_USER (lines 2060-2083).  An unauthenticated
session is told 331 Username ok; an authenticated one has its account flushed
first and is told that previous account information was flushed.  In both
branches the (normalized) username is stored afterwards. -/
def ftp_USER (s : Session) (line : String) : Session × List String :=
  let line := normalizeUsername line
  if ¬ s.authenticated then
    ({ s with username := line }, ["331 Username ok, send password."])
  else
    ({ flush_account s with username := line },
      ["331 Previous account information was flushed, send password."])

/-- C8 counterexample: a USER command on an already authenticated session is
answered with 331 Previous account information was flushed, send password -
not with the single reply text 331 Username ok, send password that the claim
asserts for every session state. -/
theorem c8_user_counterexample :
    (ftp_USER sessionMidTransfer ("bob")).2
      = ["331 Previous account information was flushed, send password."] ∧
    (ftp_USER sessionMidTransfer ("bob")).2 ≠ ["331 Username ok, send password."] := by
  constructor
  · rfl
  · intro h
    simp [ftp_USER, sessionMidTransfer, normalizeUsername] at h

/-- C8 amended: USER always replies with a 331, but with two different texts:
an unauthenticated session gets 331 Username ok, send password, while an
already authenticated session first has its account state flushed and gets
331 Previous account information was flushed, send password; in both cases
the username is then set to the (anonymous-normalized) argument. -/
theorem c8_user_replies_by_auth_state (s : Session) (line : String) :
    ftp_USER s line =
      (if s.authenticated then
        ({ flush_account s with username := normalizeUsername line },
          ["331 Previous account information was flushed, send password."])
      else
        ({ s with username := normalizeUsername line },
          ["331 Username ok, send password."])) := by
  rcases s with ⟨a, _, _, _, _, _, _, _, _, _, _, _, _⟩
  rcases a <;> rfl

/-- Outcome of the RETR handler.  uncaughtTypeError stands for the TypeError
raised in the permission-denial branch: the log call at line 1843 applies the
percent operator to the format string FAIL RETR "s". Not enough privileges.,
which contains no conversion specifier, so the interpolation raises before
the 550 respond runs, and asyncore routes the exception to
FTPHandler.handle_error (lines 1476-1479), which closes the control session.
uncaughtOsError stands for an OSError raised by fs.getsize inside the
restart block (line 1864): the except clauses there catch only
AssertionError and IOError, so it likewise escapes and closes the session. -/
inductive RetrOutcome where
  | uncaughtTypeError
  | openFailed
  | uncaughtOsError
  | restFailed (why : String)
  | transferStarted
  deriving DecidableEq

/-- Model of FTPHandler.ftp_RETR (lines 1836-1878) as a function of the facts
it consults: whether the authorizer grants read permission, whether fs.open
succeeds, the result of fs.getsize (none when it raises OSError), and whether
the seek to the restart offset succeeds.  It returns the outcome together
with the value of restart_position when control leaves the handler.  The
permission-denial branch crashes inside its log call before any reply; the
open-failure branch replies 550 and returns early with restart_position
untouched; the reset self.restart_position = 0 (line 1871) sits after the
assert/seek try-block, so an escaping getsize OSError skips it, while the
oversized-offset and seek-failure paths reach it before the 554 reply. -/
def ftp_RETR (r_perm openOk seekOk : Bool) (sizeResult : Option Nat)
    (restart : Nat) : RetrOutcome × Nat :=
  if ¬ r_perm then (.uncaughtTypeError, restart)
  else if ¬ openOk then (.openFailed, restart)
  else if restart ≠ 0 then
    match sizeResult with
    | none => (.uncaughtOsError, restart)
    | some fileSize =>
      if restart > fileSize then (.restFailed ("Invalid REST parameter"), 0)
      else if ¬ seekOk then (.restFailed ("seek error"), 0)
      else (.transferStarted, 0)
  else (.transferStarted, 0)

/-- C5 counterexample: RETR issued with restart_position 600 against a file
that cannot be opened replies 550 and returns with restart_position still
600; and on a read-permission denial the handler does not return at all: the
malformed log format string raises an uncaught TypeError that closes the
session, again with the offset unconsumed.  Either way the claim that the
offset is reset on every outcome fails. -/
theorem c5_retr_counterexample :
    ftp_RETR true false true (some 1000) 600 = (.openFailed, 600) ∧
    ftp_RETR false true true (some 1000) 600 = (.uncaughtTypeError, 600) ∧
    (600 : Nat) ≠ 0 := by
  refine ⟨by rfl, by rfl, by decide⟩

/-- C5 amended: when RETR runs with restart_position greater than zero, the
offset is reset to zero exactly when the permission check, the open and the
getsize call all succeed (covering the success, seek-failure and
oversized-offset outcomes); a read-permission denial raises an uncaught
TypeError from the malformed log format string, closing the session with the
offset unconsumed; an open failure returns early with the offset unchanged;
and a getsize OSError escapes the handler, also leaving the offset
unchanged. -/
theorem c5_retr_restart_reset_iff_opened (r_perm openOk seekOk : Bool)
    (sizeResult : Option Nat) (restart : Nat) (h : 0 < restart) :
    (ftp_RETR r_perm openOk seekOk sizeResult restart).2
      = (if r_perm ∧ openOk ∧ sizeResult.isSome then 0 else restart) := by
  rcases r_perm <;> rcases openOk <;> rcases sizeResult with _ | n <;>
    simp [ftp_RETR, Nat.pos_iff_ne_zero.mp h]
  split <;> first | rfl | (split <;> rfl)

/-- C5 witness: at read permission granted, open succeeding, getsize
returning 1000, seek succeeding and restart position 600, the amended
theorem applies and the restart position is consumed. -/
theorem c5_retr_restart_reset_iff_opened_witness :
    (ftp_RETR true true true (some 1000) 600).2
      = (if True ∧ True ∧ (some 1000 : Option Nat).isSome then 0 else 600) := by
  have h := c5_retr_restart_reset_iff_opened true true true (some 1000) 600 (by decide)
  simpa using h

/-- Outcome of the MLSD handler.  uncaughtNameError stands for the NameError
raised when the handler's except-branch evaluates the undefined module name
_str: the exception escapes ftp_MLSD, and asyncore delivers it to
FTPHandler.handle_error (lines 1476-1479), which closes the control session. -/
inductive MlsdOutcome where
  | reply (msg : String)
  | pushData
  | uncaughtNameError
  deriving DecidableEq

/-- Model of FTPHandler.ftp_MLSD (lines 1810-1833) as a function of whether
the (contained) path is a directory and of the result of fs.listdir: either
the listing or the OS error message of the raised OSError.  The except OSError
branch executes why = _str(err); the name _str is defined nowhere in
ftpserver.py (the helper is called _strerror), so the branch raises NameError
instead of producing a reply. -/
def ftp_MLSD (isdir : Bool) (listdirResult : Except String (List String)) : MlsdOutcome :=
  if ¬ isdir then .reply ("501 No such directory.")
  else
    match listdirResult with
    | .error _ => .uncaughtNameError
    | .ok _ => .pushData

/-- Modelled from the spec (error-handling table: filesystem failure surfaces
as 550 with the OS message, recovered locally): the same handler with the
except-branch repaired to use the OS error message. -/
def mlsdOfClaim (isdir : Bool) (listdirResult : Except String (List String)) : MlsdOutcome :=
  if ¬ isdir then .reply ("501 No such directory.")
  else
    match listdirResult with
    | .error why => .reply ("550 " ++ why ++ ".")
    | .ok _ => .pushData

/-- C9: when listing an existing directory fails with an OS error, the claim
(and the spec's error table) demand the local reply 550 with the OS message,
but the code's except-branch references the undefined name _str and therefore
raises NameError, which closes the control session instead. -/
theorem c9_mlsd_oserror_raises_instead_of_550 :
    ftp_MLSD true (.error ("Permission denied")) = .uncaughtNameError ∧
    mlsdOfClaim true (.error ("Permission denied")) = .reply ("550 Permission denied.") ∧
    MlsdOutcome.uncaughtNameError ≠ .reply ("550 Permission denied.") := by
  refine ⟨rfl, rfl, ?_⟩
  decide

/-- Python str.split with an explicit one-character separator: splitting the
empty string yields one empty field, and consecutive separators yield empty
fields. -/
def splitChar (sep : Char) : List Char → List (List Char)
  | [] => [[]]
  | c :: rest =>
    let r := splitChar sep rest
    if c = sep then [] :: r
    else
      match r with
      | s :: ss => (c :: s) :: ss
      | [] => [[c]]

/-- Join a list of fields with a one-character separator, the model of
Python one-character join for pieces between fields. -/
def joinChar (sep : Char) : List (List Char) → List Char
  | [] => []
  | [c] => c
  | c :: d :: rest => c ++ sep :: joinChar sep (d :: rest)

/-- Whitespace accepted by Python int() around the digits. -/
def isPySpace (c : Char) : Bool :=
  c = ' ' ∨ c = '\t' ∨ c = '\n' ∨ c = '\r' ∨ c = '\x0b' ∨ c = '\x0c'

/-- Value of a nonempty all-digit string, none otherwise. -/
def digitsVal : List Char → Option Nat
  | [] => none
  | [c] => if c.isDigit then some (c.toNat - '0'.toNat) else none
  | c :: d :: rest =>
    if c.isDigit then
      match digitsVal (d :: rest) with
      | some n => some ((c.toNat - '0'.toNat) * 10 ^ (d :: rest).length + n)
      | none => none
    else none

/-- Model of Python int(s) for a base-10 string: surrounding whitespace is
stripped, one optional sign is accepted, and at least one digit is required;
any other input raises ValueError, modelled as none. -/
def pyInt (s : List Char) : Option Int :=
  let t := ((s.dropWhile isPySpace).reverse.dropWhile isPySpace).reverse
  match t with
  | '-' :: ds => (digitsVal ds).map (fun n => -(n : Int))
  | '+' :: ds => (digitsVal ds).map (fun n => (n : Int))
  | ds => (digitsVal ds).map (fun n => (n : Int))

/-- Outcome of the PORT handler: a reply on the control channel (after which
the session keeps reading commands), an exception escaping the handler (an
IndexError from indexing the field list, which asyncore routes to
FTPHandler.handle_error, closing the session), or falling through to the
active-DTP connection attempt with the parsed target. -/
inductive PortResult where
  | reply (msg : String)
  | uncaughtIndexError
  | proceed (ip : List Char) (port : Int)
  deriving DecidableEq

/-- Model of FTPHandler.ftp_PORT (lines 1629-1680) up to the point where the
active DTP is opened.  The try-block splits on commas, joins the first four
fields with dots, and evaluates int(line[4]) * 256 + int(line[5]) in that
order; except catches only ValueError and OverflowError, so a missing fifth or
sixth field raises IndexError out of the handler.  The host fields are never
parsed as integers and no field is checked against the range 0..255. -/
def ftp_PORT (permitForeign permitPrivileged : Bool) (remoteIp : List Char)
    (line : List Char) : PortResult :=
  let parts := splitChar ',' line
  let ip := joinChar '.' (parts.take 4)
  if h4 : 4 < parts.length then
    match pyInt (parts.get ⟨4, h4⟩) with
    | none => .reply ("501 Invalid PORT format.")
    | some p1 =>
      if h5 : 5 < parts.length then
        match pyInt (parts.get ⟨5, h5⟩) with
        | none => .reply ("501 Invalid PORT format.")
        | some p2 =>
          let port := p1 * 256 + p2
          if ¬ permitForeign ∧ ip ≠ remoteIp then
            .reply ("501 Can't connect to a foreign address.")
          else if ¬ permitPrivileged ∧ port < 1024 then
            .reply ("501 Can't connect over a privileged port.")
          else .proceed ip port
      else .uncaughtIndexError
  else .uncaughtIndexError

/-- C2 counterexample: in PORT a,b,c,d,0,21 all four host fields fail to parse
as integers in 0..255, yet the handler does not reply 501 Invalid PORT format:
the fields are only string-joined into an IP, and the request is instead
rejected as a foreign address; moreover PORT 1,2,3 (fewer than six fields)
raises an IndexError that the except clause does not catch, closing the
session rather than replying 501. -/
theorem c2_port_counterexample :
    ftp_PORT false false ("1.2.3.4".toList) ("a,b,c,d,0,21".toList)
      = .reply ("501 Can't connect to a foreign address.") ∧
    PortResult.reply ("501 Can't connect to a foreign address.")
      ≠ .reply ("501 Invalid PORT format.") ∧
    ftp_PORT false false ("1.2.3.4".toList) ("1,2,3".toList) = .uncaughtIndexError := by
  refine ⟨by rfl, by decide, by rfl⟩

/-- C2 amended: a 501 Invalid PORT format reply (with the session continuing)
is produced exactly by a failure of int() on the fifth or the sixth
comma-separated field, the only fields the handler parses; the four host
fields are never integer-parsed, no field is range-checked against 0..255,
and an argument with fewer than six fields instead raises an uncaught
IndexError that closes the session. -/
theorem c2_port_invalid_format_only_for_port_fields (permitForeign permitPrivileged : Bool)
    (remoteIp line : List Char)
    (h6 : 5 < (splitChar ',' line).length)
    (hbad : pyInt ((splitChar ',' line).getD 4 []) = none ∨
      pyInt ((splitChar ',' line).getD 5 []) = none) :
    ftp_PORT permitForeign permitPrivileged remoteIp line
      = .reply ("501 Invalid PORT format.") := by
  have h4 : 4 < (splitChar ',' line).length := Nat.lt_of_succ_lt h6
  unfold ftp_PORT
  rw [dif_pos h4]
  rw [List.getD_eq_getElem?_getD, List.getElem?_eq_getElem h4, Option.getD_some,
    List.getD_eq_getElem?_getD, List.getElem?_eq_getElem h6, Option.getD_some] at hbad
  rcases hget4 : pyInt ((splitChar ',' line).get ⟨4, h4⟩) with _ | p1
  · rfl
  · simp only [List.get_eq_getElem] at hget4
    rcases hbad with hbad | hbad
    · rw [hget4] at hbad
      simp at hbad
    · simp only [hget4]
      rw [dif_pos h6]
      simp [List.get_eq_getElem, hbad]

/-- C2 witness: at the argument 1,2,3,4,x,6 the fifth field x fails to parse,
the hypotheses of the amended theorem hold, and the handler replies 501
Invalid PORT format. -/
theorem c2_port_invalid_format_only_for_port_fields_witness :
    ftp_PORT false false ("1.2.3.4".toList) ("1,2,3,4,x,6".toList)
      = .reply ("501 Invalid PORT format.") :=
  c2_port_invalid_format_only_for_port_fields false false ("1.2.3.4".toList)
    "1,2,3,4,x,6".toList (by decide) (Or.inl (by decide))

/-- The proto_cmds table of ftpserver.py (lines 146-192), deprecated synonyms
included: the command names the dispatcher recognizes. -/
def proto_cmds : List (List Char) :=
  ["ABOR", "ALLO", "APPE", "CDUP", "CWD", "DELE", "FEAT", "HELP", "LIST", "MDTM",
   "MLSD", "MLST", "MODE", "MKD", "NLST", "NOOP", "PASS", "PASV", "PORT", "PWD",
   "QUIT", "REIN", "REST", "RETR", "RMD", "RNFR", "RNTO", "SIZE", "STAT", "STOR",
   "STOU", "STRU", "SYST", "TYPE", "USER",
   "XCUP", "XCWD", "XMKD", "XPWD", "XRMD"].map String.toList

/-- Commands accepted before authentication (line 1373). -/
def unauth_cmds : List (List Char) :=
  ["FEAT", "HELP", "NOOP", "PASS", "QUIT", "STAT", "SYST", "USER"].map String.toList

/-- Commands needing an argument (lines 1376-1377). -/
def arg_cmds : List (List Char) :=
  ["ALLO", "APPE", "DELE", "MDTM", "MODE", "MKD", "PORT", "REST", "RETR", "RMD",
   "RNFR", "RNTO", "SIZE", "STOR", "STRU", "TYPE", "USER", "XMKD", "XRMD"].map
    String.toList

/-- Commands needing no argument (lines 1380-1381). -/
def unarg_cmds : List (List Char) :=
  ["ABOR", "CDUP", "FEAT", "NOOP", "PASV", "PWD", "QUIT", "REIN", "SYST",
   "XCUP", "XPWD"].map String.toList

/-- Path-scoped commands checked for root containment before dispatch
(lines 1436-1437). -/
def path_scoped_cmds : List (List Char) :=
  ["APPE", "CWD", "DELE", "MDTM", "NLST", "MLSD", "MLST", "RETR",
   "RMD", "SIZE", "STOR", "XCWD", "XRMD"].map String.toList

/-- Model of cmd = line.split(one space)[0].upper() in found_terminator
(line 1389): the characters before the first space, uppercased. -/
def cmdOf (line : List Char) : List Char :=
  (line.takeWhile (fun c => c ≠ ' ')).map Char.toUpper

/-- Model of the arg extraction of found_terminator (lines 1390-1394):
everything after the first space, or empty when there is no space. -/
def argOfLine (line : List Char) : List Char :=
  if line.any (fun c => c = ' ') then (line.dropWhile (fun c => c ≠ ' ')).drop 1 else []

/-- Python substring membership (the in operator on strings): the needle
occurs contiguously somewhere in the haystack. -/
def containsSub (needle hay : List Char) : Bool :=
  needle.isPrefixOf hay ||
    match hay with
    | [] => false
    | _ :: t => containsSub needle t

/-- Reply text of cmd_not_understood (lines 1580-1582). -/
def notUnderstoodMsg (line : List Char) : List Char :=
  "500 Command \"".toList ++ line ++ "\" not understood.".toList

/-- Reply text of the containment failure in found_terminator
(lines 1439-1442), built from ftpnorm of the argument. -/
def outsideRootMsg (normArg : List Char) : List Char :=
  "550 \"".toList ++ normArg
    ++ "\" points to a path which is outside the user's root directory.".toList

/-- Result of one dispatch step of the protocol interpreter: either a
ftp_CMD handler is invoked with an argument, or a reply is sent directly. -/
inductive Action where
  | callHandler (name : List Char) (arg : List Char)
  | respond (msg : List Char)
  deriving DecidableEq

/-- Model of FTPHandler.found_terminator (lines 1383-1456) as a dispatch
function.  The filesystem containment pre-check for path-scoped commands
(not self.fs.validpath(self.fs.ftp2fs(arg)), lines 1436-1444) is supplied by
the parameter pathCheck, which returns the ftpnorm of the argument when
containment fails and none when it succeeds.  The final else branch handles
unrecognized command words for authenticated sessions: any word containing
the substring ABOR is routed to ftp_ABOR with an empty argument, then any
containing STAT to ftp_STAT, and everything else gets the 500 reply. -/
def found_terminator (authenticated : Bool)
    (pathCheck : List Char → Option (List Char)) (line : List Char) : Action :=
  if argOfLine line = [] ∧ cmdOf line ∈ arg_cmds then
    .respond ("501 Syntax error: command needs an argument.".toList)
  else if argOfLine line ≠ [] ∧ cmdOf line ∈ unarg_cmds then
    .respond ("501 Syntax error: command does not accept arguments.".toList)
  else if ¬ authenticated then
    if cmdOf line ∈ unauth_cmds then
      if cmdOf line = "STAT".toList ∧ argOfLine line ≠ [] then
        .respond ("530 Log in with USER and PASS first.".toList)
      else .callHandler (cmdOf line) (argOfLine line)
    else if cmdOf line ∈ proto_cmds then
      .respond ("530 Log in with USER and PASS first.".toList)
    else .respond (notUnderstoodMsg line)
  else if cmdOf line ∈ proto_cmds then
    if cmdOf line ∈ path_scoped_cmds then
      match pathCheck (argOfLine line) with
      | some normArg => .respond (outsideRootMsg normArg)
      | none => .callHandler (cmdOf line) (argOfLine line)
    else .callHandler (cmdOf line) (argOfLine line)
  else if containsSub ("ABOR".toList) (cmdOf line) then
    .callHandler ("ABOR".toList) []
  else if containsSub ("STAT".toList) (cmdOf line) then
    .callHandler ("STAT".toList) []
  else .respond (notUnderstoodMsg line)

/-- Commands needing an argument are all recognized commands. -/
theorem argCmds_subset_protoCmds : ∀ c ∈ arg_cmds, c ∈ proto_cmds := by
  have h : arg_cmds.all (fun c => decide (c ∈ proto_cmds)) = true := by decide
  intro c hc
  simpa using List.all_eq_true.mp h c hc

/-- Commands forbidding an argument are all recognized commands. -/
theorem unargCmds_subset_protoCmds : ∀ c ∈ unarg_cmds, c ∈ proto_cmds := by
  have h : unarg_cmds.all (fun c => decide (c ∈ proto_cmds)) = true := by decide
  intro c hc
  simpa using List.all_eq_true.mp h c hc

/-- C10 counterexample: the unrecognized word STATABOR contains the substring
STAT, yet an authenticated session dispatches it to the ABOR handler, because
the ABOR substring test is performed first; this refutes the claim that every
unrecognized word containing STAT reaches the STAT handler. -/
theorem c10_dispatch_counterexample :
    found_terminator true (fun _ => none) ("STATABOR".toList)
      = .callHandler ("ABOR".toList) [] ∧
    containsSub ("STAT".toList) (cmdOf ("STATABOR".toList)) = true ∧
    ("STATABOR".toList ∈ proto_cmds → False) ∧
    Action.callHandler ("ABOR".toList) [] ≠ .callHandler ("STAT".toList) [] := by
  refine ⟨by decide, by decide, by decide, by decide⟩

/-- C10 amended: for an authenticated session, an unrecognized uppercased
command word containing the substring ABOR is dispatched to the ABOR handler
with an empty argument; one containing STAT but not ABOR is dispatched to the
STAT handler with an empty argument; and only lines containing neither
substring in the command word receive the 500 not-understood reply. -/
theorem c10_special_dispatch_of_unrecognized (pathCheck : List Char → Option (List Char))
    (line : List Char) (hcmd : cmdOf line ∉ proto_cmds) :
    found_terminator true pathCheck line =
      (if containsSub ("ABOR".toList) (cmdOf line) then .callHandler ("ABOR".toList) []
       else if containsSub ("STAT".toList) (cmdOf line) then .callHandler ("STAT".toList) []
       else .respond (notUnderstoodMsg line)) := by
  have h1 : ¬ (argOfLine line = [] ∧ cmdOf line ∈ arg_cmds) := by
    rintro ⟨-, hm⟩
    exact hcmd (argCmds_subset_protoCmds _ hm)
  have h2 : ¬ (argOfLine line ≠ [] ∧ cmdOf line ∈ unarg_cmds) := by
    rintro ⟨-, hm⟩
    exact hcmd (unargCmds_subset_protoCmds _ hm)
  simp [found_terminator, h1, h2, hcmd]

/-- C10 witness: the unrecognized word FOO contains neither ABOR nor STAT,
the amended theorem applies, and the reply is the 500 not-understood text. -/
theorem c10_special_dispatch_of_unrecognized_witness :
    found_terminator true (fun _ => none) ("FOO".toList)
      = .respond (notUnderstoodMsg ("FOO".toList)) := by
  have h := c10_special_dispatch_of_unrecognized (fun _ => none) ("FOO".toList) (by decide)
  simpa using h

/-- Model of the outbound ASCII data wrapper of FileProducer (lines 778-785):
x.replace(os.linesep, CRLF) on the POSIX host, applied to each chunk read
from the file.  The pattern is the single character LF, so the
replacement maps each character independently. -/
def replLF : List Char → List Char
  | [] => []
  | c :: rest => if c = '\n' then '\r' :: '\n' :: replLF rest else c :: replLF rest

/-- Model of the inbound ASCII data wrapper of DTPHandler.enable_receiving
(lines 587-596): x.replace(CRLF, os.linesep) on the POSIX host, applied to
each chunk received from the socket.  Python str.replace scans left to right
without overlap, consuming two characters on a match and one otherwise. -/
def replCRLF : List Char → List Char
  | [] => []
  | [c] => [c]
  | c1 :: c2 :: rest =>
    if c1 = '\r' ∧ c2 = '\n' then '\n' :: replCRLF rest
    else c1 :: replCRLF (c2 :: rest)

/-- No chunk boundary of the partition splits a CRLF pair: wherever a chunk
ends with CR, the remainder of the stream does not begin with LF. -/
def noSplit : List (List Char) → Bool
  | [] => true
  | a :: rest =>
    (rest.isEmpty || decide (a.getLast? ≠ some '\r')
        || decide (rest.flatten.head? ≠ some '\n'))
      && noSplit rest

/-- Outbound translation distributes over concatenation: translating the file
chunk by chunk as it is read equals translating the whole content. -/
theorem replLF_append (a b : List Char) : replLF (a ++ b) = replLF a ++ replLF b := by
  induction a with
  | nil => rfl
  | cons c rest ih =>
    by_cases hc : c = '\n' <;> simp [replLF, hc, ih]

/-- Outbound translation of a list of chunks, joined, equals the outbound
translation of the joined content. -/
theorem join_map_replLF (chunks : List (List Char)) :
    (chunks.map replLF).flatten = replLF chunks.flatten := by
  induction chunks with
  | nil => rfl
  | cons a rest ih => simp [replLF_append, ih]

/-- The outbound translation never produces a leading LF: every LF it emits
is preceded by the CR inserted with it. -/
theorem head_replLF_ne_lf (a : List Char) : (replLF a).head? ≠ some '\n' := by
  cases a with
  | nil => simp [replLF]
  | cons c rest =>
    by_cases hc : c = '\n'
    · simp [replLF, hc]
    · simp only [replLF, if_neg hc, List.head?_cons, ne_eq, Option.some.injEq]
      exact hc

/-- The outbound translation is empty only on the empty content. -/
theorem replLF_eq_nil {a : List Char} (h : replLF a = []) : a = [] := by
  cases a with
  | nil => rfl
  | cons c rest =>
    by_cases hc : c = '\n' <;> simp [replLF, hc] at h

/-- Applying the inbound translation to the whole outbound-translated stream
restores the original content. -/
theorem replCRLF_replLF (a : List Char) : replCRLF (replLF a) = a := by
  induction a with
  | nil => rfl
  | cons c rest ih =>
    by_cases hc : c = '\n'
    · simp [replLF, hc, replCRLF, ih]
    · rcases hrest : replLF rest with _ | ⟨d, ds⟩
      · have : rest = [] := replLF_eq_nil hrest
        simp [replLF, hc, this, replCRLF]
      · have hd : d ≠ '\n' := by
          have := head_replLF_ne_lf rest
          rw [hrest] at this
          simpa using this
        have hcond : ¬ (c = '\r' ∧ d = '\n') := fun h => hd h.2
        calc replCRLF (replLF (c :: rest)) = replCRLF (c :: d :: ds) := by
              simp [replLF, hc, hrest]
          _ = c :: replCRLF (d :: ds) := by simp [replCRLF, hcond]
          _ = c :: replCRLF (replLF rest) := by rw [hrest]
          _ = c :: rest := by rw [ih]

/-- The inbound translation distributes over a concatenation whose boundary
does not split a CRLF pair. -/
theorem replCRLF_append_of_ok : ∀ (a b : List Char),
    a.getLast? ≠ some '\r' ∨ b.head? ≠ some '\n' →
    replCRLF (a ++ b) = replCRLF a ++ replCRLF b
  | [], b, _ => by simp [replCRLF]
  | [c], b, h => by
    cases b with
    | nil => simp [replCRLF]
    | cons d bs =>
      have hcond : ¬ (c = '\r' ∧ d = '\n') := by
        rintro ⟨rfl, rfl⟩
        simp at h
      simp [replCRLF, hcond]
  | c1 :: c2 :: rest, b, h => by
    by_cases hcond : c1 = '\r' ∧ c2 = '\n'
    · rcases rest with _ | ⟨e, es⟩
      · simp [replCRLF, hcond]
      · have hlast : (c1 :: c2 :: e :: es).getLast? = (e :: es).getLast? := by
          simp [List.getLast?_cons_cons]
        have h2 : (e :: es).getLast? ≠ some '\r' ∨ b.head? ≠ some '\n' := by
          rcases h with h | h
          · exact Or.inl (hlast ▸ h)
          · exact Or.inr h
        have ih := replCRLF_append_of_ok (e :: es) b h2
        simp only [List.cons_append] at ih
        simp [replCRLF, hcond, ih]
    · have hlast : (c1 :: c2 :: rest).getLast? = (c2 :: rest).getLast? := by
        simp [List.getLast?_cons_cons]
      have h2 : (c2 :: rest).getLast? ≠ some '\r' ∨ b.head? ≠ some '\n' := by
        rcases h with h | h
        · exact Or.inl (hlast ▸ h)
        · exact Or.inr h
      have ih := replCRLF_append_of_ok (c2 :: rest) b h2
      simp only [List.cons_append] at ih
      simp [replCRLF, hcond, ih]

/-- Inbound translation of a partition with unsplit CRLF pairs, joined,
equals the inbound translation of the whole stream. -/
theorem join_map_replCRLF (chunks : List (List Char)) (h : noSplit chunks = true) :
    (chunks.map replCRLF).flatten = replCRLF chunks.flatten := by
  induction chunks with
  | nil => rfl
  | cons a rest ih =>
    rw [noSplit, Bool.and_eq_true] at h
    rcases h with ⟨hcond, hrest⟩
    rcases hre : rest with _ | ⟨b, bs⟩
    · simp [replCRLF]
    · rw [hre] at hcond hrest ih
      have hok : a.getLast? ≠ some '\r' ∨ ((b :: bs).flatten).head? ≠ some '\n' := by
        rw [List.isEmpty_cons] at hcond
        simp only [Bool.false_or, Bool.or_eq_true, decide_eq_true_eq] at hcond
        exact hcond
      have hjoin := ih hrest
      simp only [List.map_cons, List.flatten_cons] at hjoin hok ⊢
      rw [hjoin, ← replCRLF_append_of_ok (a := a) (b := b ++ bs.flatten) hok]

/-- C4 counterexample: the file content LF is transmitted as CR LF; when the
receiver obtains it as the two chunks CR and LF, the chunk-wise inbound
translation finds no CRLF inside either chunk and stores CR LF, not the
original LF, so the round trip is not the identity for every partition of the
transmitted stream. -/
theorem c4_ascii_roundtrip_counterexample :
    ([['\r'], ['\n']] : List (List Char)).flatten
        = (([['\n']] : List (List Char)).map replLF).flatten ∧
    (([['\r'], ['\n']] : List (List Char)).map replCRLF).flatten = ['\r', '\n'] ∧
    (['\r', '\n'] : List Char) ≠ ([['\n']] : List (List Char)).flatten := by
  refine ⟨by rfl, by rfl, by decide⟩

/-- C4 amended: the round trip is the identity for every partition of the
file into read chunks and every partition of the transmitted stream into
received chunks in which no chunk boundary splits a CRLF pair (in particular
whenever the stream arrives in one chunk); a boundary that splits an inserted
CR LF leaves the pair untranslated. -/
theorem c4_ascii_roundtrip_of_unsplit (fileChunks rxChunks : List (List Char))
    (hstream : rxChunks.flatten = (fileChunks.map replLF).flatten)
    (hnosplit : noSplit rxChunks = true) :
    (rxChunks.map replCRLF).flatten = fileChunks.flatten := by
  rw [join_map_replCRLF rxChunks hnosplit, hstream, join_map_replLF]
  exact replCRLF_replLF _

/-- C4 witness: content a LF is transmitted as a CR LF and received in one
chunk; the amended theorem applies and the stored file equals the original. -/
theorem c4_ascii_roundtrip_of_unsplit_witness :
    (([['a', '\r', '\n']] : List (List Char)).map replCRLF).flatten
      = ([['a', '\n']] : List (List Char)).flatten := by
  have h := c4_ascii_roundtrip_of_unsplit [['a', '\n']] [['a', '\r', '\n']]
    (by rfl) (by decide)
  simpa using h

/-- Model of posixpath.isabs: the path begins with the separator. -/
def isabs (p : List Char) : Bool :=
  p.take 1 = ['/']

/-- Model of posixpath.join for two arguments: an absolute second argument
wins; otherwise the parts are glued, inserting a separator unless the first
part is empty or already ends with one. -/
def pyJoin (a b : List Char) : List Char :=
  if isabs b then b
  else if a = [] ∨ a.getLast? = some '/' then a ++ b
  else a ++ '/' :: b

/-- Number of initial slashes that posixpath.normpath preserves: two for the
POSIX double-slash special case, otherwise one for an absolute path and zero
for a relative one. -/
def initSlashes (path : List Char) : Nat :=
  if path.take 1 = ['/'] then
    if path.take 2 = ['/', '/'] ∧ path.take 3 ≠ ['/', '/', '/'] then 2 else 1
  else 0

/-- One step of posixpath.normpath's component loop: empty and dot components
are dropped; a component is appended when it is not a dot-dot, or when the
path is relative and nothing has been collected, or when the collected tail
is itself a dot-dot; otherwise the last collected component is popped. -/
def normStep (noSlashes : Bool) (acc : List (List Char)) (comp : List Char) :
    List (List Char) :=
  if comp = [] ∨ comp = ['.'] then acc
  else if comp ≠ ['.', '.'] ∨ (noSlashes = true ∧ acc = []) ∨ acc.getLast? = some ['.', '.']
    then acc ++ [comp]
  else acc.dropLast

/-- Body of posixpath.normpath before the final empty-string fallback: the
preserved initial slashes followed by the collapsed components re-joined with
separators. -/
def normBody (path : List Char) : List Char :=
  List.replicate (initSlashes path) '/' ++
    joinChar '/' ((splitChar '/' path).foldl (normStep (initSlashes path == 0)) [])

/-- Model of posixpath.normpath (the os.path.normpath of the POSIX host):
empty input and an empty collapsed result both give the dot. -/
def pyNormpath (path : List Char) : List Char :=
  if path = [] then ['.']
  else if normBody path = [] then ['.'] else normBody path

/-- Model of the while loop of AbstractedFS.ftpnorm (lines 845-846): strip
leading slashes while the string begins with two of them. -/
def stripDslash : List Char → List Char
  | [] => []
  | [c] => [c]
  | c1 :: c2 :: rest =>
    if c1 = '/' ∧ c2 = '/' then stripDslash (c2 :: rest) else c1 :: c2 :: rest

/-- Model of AbstractedFS.ftpnorm (lines 825-852): normalize against cwd,
turn backslashes into slashes, collapse leading double slashes, and fall back
to the root when the result is somehow not absolute. -/
def ftpnorm (cwd ftppath : List Char) : List Char :=
  let p := if isabs ftppath then pyNormpath ftppath else pyNormpath (pyJoin cwd ftppath)
  let p := p.map (fun c => if c = '\\' then '/' else c)
  let p := stripDslash p
  if ¬ isabs p then ['/'] else p

/-- Model of AbstractedFS.ftp2fs (lines 854-869): when the normalized root is
the separator itself, just host-normalize the virtual path; otherwise join
the root with the virtual path minus its leading slash and host-normalize. -/
def ftp2fs (root cwd ftppath : List Char) : List Char :=
  if pyNormpath root = ['/'] then pyNormpath (ftpnorm cwd ftppath)
  else pyNormpath (pyJoin root ((ftpnorm cwd ftppath).drop 1))

/-- Model of AbstractedFS.fs2ftp (lines 871-895): normalize, return the root
slash for paths failing containment, otherwise strip the session root prefix
(by length) and re-anchor at the slash.  The separator replacement of the
source is the identity on the POSIX host and is kept as the identity map. -/
def fs2ftp (resolve : List Char → List Char) (root fspath : List Char) : List Char :=
  let p := if isabs fspath then pyNormpath fspath else pyNormpath (pyJoin root fspath)
  if ¬ validpath resolve root p then ['/']
  else
    let p := p.map (fun c => if c = '/' then '/' else c)
    let p := p.drop root.length
    if ¬ (p.take 1 = ['/']) then '/' :: p else p

/-- C6 counterexample: with root /home/user and cwd the root slash, the
client path dot is different from the slash, ftp2fs maps it to the session
root itself, validpath accepts that host path, and yet fs2ftp sends it back
to the virtual root slash - so the claimed equivalence fails at p = dot (no
symlinks involved: realpath is the identity). -/
theorem c6_law_counterexample :
    ("." : String) ≠ "/" ∧
    validpath id ("/home/user".toList)
      (ftp2fs ("/home/user".toList) ("/".toList) (".".toList)) = true ∧
    fs2ftp id ("/home/user".toList)
      (ftp2fs ("/home/user".toList) ("/".toList) (".".toList)) = "/".toList := by
  refine ⟨by decide, by rfl, by rfl⟩

/-- Splitting never produces the empty list of components. -/
theorem splitChar_ne_nil (sep : Char) : ∀ (p : List Char), splitChar sep p ≠ []
  | [] => by simp [splitChar]
  | ch :: rest => by
    by_cases h : ch = sep
    · simp [splitChar, h]
    · simp only [splitChar, if_neg h]
      rcases hs : splitChar sep rest with _ | ⟨s, ss⟩ <;> simp

/-- No component produced by splitting contains the separator. -/
theorem not_mem_of_mem_splitChar (sep : Char) :
    ∀ (p : List Char), ∀ c ∈ splitChar sep p, sep ∉ c
  | [], c, hc => by
    simp [splitChar] at hc
    simp [hc]
  | ch :: rest, c, hc => by
    by_cases h : ch = sep
    · simp only [splitChar, if_pos h, List.mem_cons] at hc
      rcases hc with rfl | hc
      · simp
      · exact not_mem_of_mem_splitChar sep rest c hc
    · simp only [splitChar, if_neg h] at hc
      rcases hs : splitChar sep rest with _ | ⟨s, ss⟩
      · exact absurd hs (splitChar_ne_nil sep rest)
      · rw [hs, List.mem_cons] at hc
        rcases hc with rfl | hc
        · intro hmem
          rcases List.mem_cons.mp hmem with heq | hmem2
          · exact h heq.symm
          · exact not_mem_of_mem_splitChar sep rest s (hs ▸ List.mem_cons_self s ss) hmem2
        · exact not_mem_of_mem_splitChar sep rest c (hs ▸ List.mem_cons_of_mem s hc)

/-- Splitting a separator-free string gives that string as the only
component. -/
theorem splitChar_of_not_mem (sep : Char) :
    ∀ (c : List Char), sep ∉ c → splitChar sep c = [c]
  | [], _ => by simp [splitChar]
  | ch :: rest, h => by
    have hch : ¬ ch = sep := fun he => h (he ▸ List.mem_cons_self ch rest)
    have hrest : sep ∉ rest := fun hm => h (List.mem_cons_of_mem ch hm)
    simp only [splitChar, if_neg hch, splitChar_of_not_mem sep rest hrest]

/-- Splitting a separator-free piece glued before a separator peels off that
piece as the first component. -/
theorem splitChar_append_sep (sep : Char) :
    ∀ (c t : List Char), sep ∉ c → splitChar sep (c ++ sep :: t) = c :: splitChar sep t
  | [], t, _ => by simp [splitChar]
  | ch :: c, t, h => by
    have hch : ¬ ch = sep := fun he => h (he ▸ List.mem_cons_self ch c)
    have hc : sep ∉ c := fun hm => h (List.mem_cons_of_mem ch hm)
    have ih := splitChar_append_sep sep c t hc
    simp only [List.cons_append, splitChar, if_neg hch]
    rw [show c.append (sep :: t) = c ++ sep :: t from rfl, ih]

/-- Splitting is a left inverse of joining for nonempty separator-free
component lists. -/
theorem splitChar_joinChar (sep : Char) :
    ∀ (cs : List (List Char)), cs ≠ [] → (∀ c ∈ cs, sep ∉ c) →
    splitChar sep (joinChar sep cs) = cs
  | [], hne, _ => absurd rfl hne
  | [c], _, h => by
    simpa [joinChar] using splitChar_of_not_mem sep c (h c (List.mem_cons_self c []))
  | c :: d :: rest, _, h => by
    have hc : sep ∉ c := h c (List.mem_cons_self c (d :: rest))
    have hrest : ∀ e ∈ d :: rest, sep ∉ e := fun e he => h e (List.mem_cons_of_mem c he)
    have ih := splitChar_joinChar sep (d :: rest) (by simp) hrest
    simp only [joinChar, splitChar_append_sep sep c (joinChar sep (d :: rest)) hc, ih]

/-- A component of a normalized path: nonempty, not a dot, not a dot-dot and
separator-free. -/
def GoodComp (c : List Char) : Prop :=
  c ≠ [] ∧ c ≠ ['.'] ∧ c ≠ ['.', '.'] ∧ '/' ∉ c

/-- Joining nonempty components yields a nonempty string. -/
theorem joinChar_ne_nil (sep : Char) :
    ∀ (cs : List (List Char)), cs ≠ [] → (∀ c ∈ cs, c ≠ []) → joinChar sep cs ≠ []
  | [], hne, _ => absurd rfl hne
  | [c], _, h => by simpa [joinChar] using h c (List.mem_cons_self c [])
  | c :: d :: rest, _, h => by
    simp only [joinChar]
    intro heq
    rcases List.append_eq_nil.mp heq with ⟨-, h2⟩
    exact List.cons_ne_nil sep _ h2

/-- A join of good components does not begin with the separator. -/
theorem joinChar_head_ne_sep :
    ∀ (cs : List (List Char)), (∀ c ∈ cs, GoodComp c) →
    (joinChar '/' cs).head? ≠ some '/'
  | [], _ => by simp [joinChar]
  | [c], h => by
    obtain ⟨hne, -, -, hsep⟩ := h c (List.mem_cons_self c [])
    rcases c with _ | ⟨x, xs⟩
    · exact absurd rfl hne
    · simp only [joinChar, List.head?_cons, ne_eq, Option.some.injEq]
      intro he
      exact hsep (he ▸ List.mem_cons_self x xs)
  | c :: d :: rest, h => by
    obtain ⟨hne, -, -, hsep⟩ := h c (List.mem_cons_self c (d :: rest))
    rcases c with _ | ⟨x, xs⟩
    · exact absurd rfl hne
    · simp only [joinChar, List.cons_append, List.head?_cons, ne_eq, Option.some.injEq]
      intro he
      exact hsep (he ▸ List.mem_cons_self x xs)

/-- A join of good components does not end with the separator. -/
theorem joinChar_getLast_ne_sep :
    ∀ (cs : List (List Char)), (∀ c ∈ cs, GoodComp c) →
    (joinChar '/' cs).getLast? ≠ some '/'
  | [], _ => by simp [joinChar]
  | [c], h => by
    obtain ⟨-, -, -, hsep⟩ := h c (List.mem_cons_self c [])
    simp only [joinChar, ne_eq]
    intro he
    exact hsep (List.mem_of_mem_getLast? he)
  | c :: d :: rest, h => by
    have hrest : ∀ e ∈ d :: rest, GoodComp e := fun e he => h e (List.mem_cons_of_mem c he)
    have ihne : joinChar '/' (d :: rest) ≠ [] :=
      joinChar_ne_nil '/' (d :: rest) (by simp) (fun e he => (hrest e he).1)
    have ih := joinChar_getLast_ne_sep (d :: rest) hrest
    rcases hj : joinChar '/' (d :: rest) with _ | ⟨y, ys⟩
    · exact absurd hj ihne
    · rw [hj] at ih
      simp only [joinChar, List.getLast?_append, List.getLast?_cons_cons, hj]
      rcases hys : (y :: ys).getLast? with _ | z
      · simp at hys
      · simpa [hys, Option.or] using ih

/-- The component loop of an absolute path appends every good component
unchanged. -/
theorem foldl_normStep_of_good :
    ∀ (cs : List (List Char)), (∀ c ∈ cs, GoodComp c) →
    ∀ (acc : List (List Char)), List.foldl (normStep false) acc cs = acc ++ cs
  | [], _, acc => by simp
  | c :: cs, h, acc => by
    obtain ⟨hne, hdot, hdd, -⟩ := h c (List.mem_cons_self c cs)
    have hstep : normStep false acc c = acc ++ [c] := by
      rw [normStep, if_neg (by simp [hne, hdot]), if_pos (Or.inl hdd)]
    have ih := foldl_normStep_of_good cs (fun e he => h e (List.mem_cons_of_mem c he))
      (acc ++ [c])
    simp only [List.foldl_cons, hstep, ih, List.append_assoc, List.singleton_append]

/-- The component loop of an absolute path only accumulates good components:
empties and dots are skipped, and dot-dots pop instead of appending. -/
theorem goodComp_foldl_normStep :
    ∀ (cs : List (List Char)), (∀ c ∈ cs, '/' ∉ c) →
    ∀ (acc : List (List Char)), (∀ a ∈ acc, GoodComp a) →
    ∀ a ∈ List.foldl (normStep false) acc cs, GoodComp a
  | [], _, acc, hacc => by simpa using hacc
  | c :: cs, h, acc, hacc => by
    have hcs : ∀ e ∈ cs, '/' ∉ e := fun e he => h e (List.mem_cons_of_mem c he)
    have hstep : ∀ a ∈ normStep false acc c, GoodComp a := by
      intro a ha
      rw [normStep] at ha
      by_cases hg1 : c = [] ∨ c = ['.']
      · rw [if_pos hg1] at ha
        exact hacc a ha
      · rw [if_neg hg1] at ha
        by_cases hg2 : c ≠ ['.', '.'] ∨ ((false : Bool) = true ∧ acc = [])
            ∨ acc.getLast? = some ['.', '.']
        · rw [if_pos hg2] at ha
          rcases List.mem_append.mp ha with ha | ha
          · exact hacc a ha
          · have hac : a = c := by simpa using ha
            subst hac
            rw [not_or] at hg1
            have hdd : a ≠ ['.', '.'] := by
              rcases hg2 with hg2 | hg2 | hg2
              · exact hg2
              · exact absurd hg2.1 (by simp)
              · exact absurd rfl (hacc _ (List.mem_of_mem_getLast? hg2)).2.2.1
            exact ⟨hg1.1, hg1.2, hdd, h a (List.mem_cons_self a cs)⟩
        · rw [if_neg hg2] at ha
          exact hacc a (List.dropLast_subset acc ha)
    simpa using goodComp_foldl_normStep cs hcs (normStep false acc c) hstep

/-- The initial-slash count of a path beginning with exactly one slash. -/
theorem initSlashes_single (z : List Char) (h1 : z.take 1 = ['/'])
    (h2 : z.take 2 ≠ ['/', '/']) : initSlashes z = 1 := by
  rw [initSlashes, if_pos h1, if_neg]
  rintro ⟨h, -⟩
  exact h2 h

/-- Normalizing a path with a single leading slash yields a slash followed by
a join of good components. -/
theorem pyNormpath_abs_form (z : List Char) (h1 : z.take 1 = ['/'])
    (h2 : z.take 2 ≠ ['/', '/']) :
    ∃ cs, (∀ c ∈ cs, GoodComp c) ∧ pyNormpath z = '/' :: joinChar '/' cs := by
  have hzne : z ≠ [] := by
    rintro rfl
    simp at h1
  have hinit : initSlashes z = 1 := initSlashes_single z h1 h2
  refine ⟨(splitChar '/' z).foldl (normStep false) [], ?_, ?_⟩
  · exact goodComp_foldl_normStep (splitChar '/' z)
      (not_mem_of_mem_splitChar '/' z) [] (by simp)
  · have hbody : normBody z
        = '/' :: joinChar '/' ((splitChar '/' z).foldl (normStep false) []) := by
      rw [normBody, hinit]
      rfl
    rw [pyNormpath, if_neg hzne, if_neg (by rw [hbody]; exact List.cons_ne_nil _ _), hbody]

/-- Normalization is the identity on a slash followed by a join of good
components: pyNormpath's own outputs are fixed points. -/
theorem pyNormpath_fix (cs : List (List Char)) (h : ∀ c ∈ cs, GoodComp c) :
    pyNormpath ('/' :: joinChar '/' cs) = '/' :: joinChar '/' cs := by
  rcases cs with _ | ⟨c, cs⟩
  · rfl
  · have hgood : ∀ e ∈ c :: cs, GoodComp e := h
    have hjne : joinChar '/' (c :: cs) ≠ [] :=
      joinChar_ne_nil '/' (c :: cs) (by simp) (fun e he => (hgood e he).1)
    have hhead : (joinChar '/' (c :: cs)).head? ≠ some '/' :=
      joinChar_head_ne_sep (c :: cs) hgood
    have h1 : ('/' :: joinChar '/' (c :: cs)).take 1 = ['/'] := rfl
    have h2 : ('/' :: joinChar '/' (c :: cs)).take 2 ≠ ['/', '/'] := by
      rcases hj : joinChar '/' (c :: cs) with _ | ⟨y, ys⟩
      · exact absurd hj hjne
      · have hy : y ≠ '/' := by
          rw [hj] at hhead
          simpa using hhead
        simp [List.take_cons, hy]
    have hinit : initSlashes ('/' :: joinChar '/' (c :: cs)) = 1 :=
      initSlashes_single _ h1 h2
    have hsplit : splitChar '/' ('/' :: joinChar '/' (c :: cs))
        = [] :: (c :: cs) := by
      have hstep : splitChar '/' ('/' :: joinChar '/' (c :: cs))
          = [] :: splitChar '/' (joinChar '/' (c :: cs)) := by
        simp [splitChar]
      rw [hstep, splitChar_joinChar '/' (c :: cs) (by simp)
        (fun e he => (hgood e he).2.2.2)]
    have hfold : (splitChar '/' ('/' :: joinChar '/' (c :: cs))).foldl
        (normStep false) [] = c :: cs := by
      rw [hsplit]
      simp only [List.foldl_cons]
      rw [show normStep false [] [] = [] from rfl]
      simpa using foldl_normStep_of_good (c :: cs) hgood []
    have hbody : normBody ('/' :: joinChar '/' (c :: cs))
        = '/' :: joinChar '/' (c :: cs) := by
      rw [normBody, hinit]
      simp only [Nat.reduceBEq, hfold]
      rfl
    rw [pyNormpath, if_neg (List.cons_ne_nil _ _), if_neg (by rw [hbody]; simp), hbody]

/-- The double-slash stripping loop never leaves two leading slashes. -/
theorem stripDslash_take2 : ∀ (p : List Char), (stripDslash p).take 2 ≠ ['/', '/']
  | [] => by simp [stripDslash]
  | [c] => by simp [stripDslash]
  | c1 :: c2 :: rest => by
    by_cases h : c1 = '/' ∧ c2 = '/'
    · rw [stripDslash, if_pos h]
      exact stripDslash_take2 (c2 :: rest)
    · rw [stripDslash, if_neg h]
      intro heq
      simp only [List.take_cons (by omega : 0 < 2), List.take_cons (by omega : 0 < 1),
        List.take_zero] at heq
      exact h ⟨by injection heq, by injection heq with _ h2; injection h2⟩

/-- The absolute test unfolds to the one-element take. -/
theorem isabs_iff (q : List Char) : isabs q = true ↔ q.take 1 = ['/'] := by
  simp [isabs]

/-- The final guard of ftpnorm forces a leading slash. -/
theorem take1_of_absGuard (q : List Char) :
    (if ¬ isabs q = true then ['/'] else q).take 1 = ['/'] := by
  split
  · rfl
  · next h =>
    rw [not_not] at h
    exact (isabs_iff q).mp h

/-- The final guard of ftpnorm applied after double-slash stripping never
leaves two leading slashes. -/
theorem take2_of_absGuard (r : List Char) :
    (if ¬ isabs (stripDslash r) = true then ['/'] else stripDslash r).take 2
      ≠ ['/', '/'] := by
  split
  · simp
  · exact stripDslash_take2 r

/-- The ftpnorm result always begins with a slash. -/
theorem ftpnorm_take1 (cwd p : List Char) : (ftpnorm cwd p).take 1 = ['/'] := by
  rw [ftpnorm]
  exact take1_of_absGuard _

/-- The ftpnorm result never begins with two slashes. -/
theorem ftpnorm_take2 (cwd p : List Char) : (ftpnorm cwd p).take 2 ≠ ['/', '/'] := by
  rw [ftpnorm]
  exact take2_of_absGuard _

/-- The separator-to-separator replacement of fs2ftp is the identity map. -/
theorem map_sep_id (l : List Char) : l.map (fun c => if c = '/' then '/' else c) = l := by
  induction l with
  | nil => rfl
  | cons c t ih => by_cases h : c = '/' <;> simp [h, ih]

/-- Every ftp2fs result is a slash followed by a join of good components,
provided the session root is a normalized absolute path with a single leading
slash. -/
theorem ftp2fs_form (root cwd p : List Char) (hroot1 : pyNormpath root = root)
    (hroot2 : root.take 1 = ['/']) (hroot3 : root.take 2 ≠ ['/', '/']) :
    ∃ cs, (∀ c ∈ cs, GoodComp c) ∧ ftp2fs root cwd p = '/' :: joinChar '/' cs := by
  by_cases hr : pyNormpath root = ['/']
  · rw [ftp2fs, if_pos hr]
    exact pyNormpath_abs_form _ (ftpnorm_take1 cwd p) (ftpnorm_take2 cwd p)
  · rw [ftp2fs, if_neg hr]
    obtain ⟨csr, hcsr, hre⟩ := pyNormpath_abs_form root hroot2 hroot3
    rw [hroot1] at hre
    have hcsrne : csr ≠ [] := by
      rintro rfl
      rw [hroot1, hre] at hr
      exact hr rfl
    have hjrne : joinChar '/' csr ≠ [] :=
      joinChar_ne_nil '/' csr hcsrne (fun e he => (hcsr e he).1)
    have hrootlast : root.getLast? ≠ some '/' := by
      rw [hre]
      rcases hj : joinChar '/' csr with _ | ⟨y, ys⟩
      · exact absurd hj hjrne
      · rw [List.getLast?_cons_cons, ← hj]
        exact joinChar_getLast_ne_sep csr hcsr
    have hrootne : root ≠ [] := by
      rw [hre]
      exact List.cons_ne_nil _ _
    have hrellow : isabs ((ftpnorm cwd p).drop 1) = false := by
      have ht1 := ftpnorm_take1 cwd p
      have ht2 := ftpnorm_take2 cwd p
      rcases hf : ftpnorm cwd p with _ | ⟨a, t⟩
      · rw [hf] at ht1
        simp at ht1
      · rw [hf] at ht1 ht2
        have ha : a = '/' := by
          simpa [List.take_cons] using ht1
        subst ha
        rcases t with _ | ⟨b, t2⟩
        · rfl
        · have hb : b ≠ '/' := by
            intro hb
            exact ht2 (by simp [List.take_cons, hb])
          simp only [List.drop_succ_cons, List.drop_zero, isabs]
          rcases t2 with _ | ⟨e, t3⟩ <;> simp [List.take_cons, hb]
    have hz : pyJoin root ((ftpnorm cwd p).drop 1)
        = root ++ '/' :: (ftpnorm cwd p).drop 1 := by
      rw [pyJoin, if_neg (by rw [hrellow]; simp), if_neg]
      rintro (h1 | h2)
      · exact hrootne h1
      · exact hrootlast h2
    have hlen2 : 2 ≤ root.length := by
      rw [hre]
      rcases hj : joinChar '/' csr with _ | ⟨y, ys⟩
      · exact absurd hj hjrne
      · simp
    have hz1 : (pyJoin root ((ftpnorm cwd p).drop 1)).take 1 = ['/'] := by
      rw [hz, List.take_append_of_le_length (by omega), hroot2]
    have hz2 : (pyJoin root ((ftpnorm cwd p).drop 1)).take 2 ≠ ['/', '/'] := by
      rw [hz, List.take_append_of_le_length (by omega)]
      exact hroot3
    exact pyNormpath_abs_form _ hz1 hz2

/-- A normalized absolute path other than the root slash does not end with
the separator. -/
theorem normAbs_getLast_ne (cs : List (List Char)) (hcs : ∀ c ∈ cs, GoodComp c)
    (hne : cs ≠ []) : ('/' :: joinChar '/' cs).getLast? ≠ some '/' := by
  have hjne := joinChar_ne_nil '/' cs hne (fun e he => (hcs e he).1)
  rcases hj : joinChar '/' cs with _ | ⟨y, ys⟩
  · exact absurd hj hjne
  · rw [List.getLast?_cons_cons, ← hj]
    exact joinChar_getLast_ne_sep cs hcs

/-- With the identity resolver and a root not ending in the separator,
validpath compares the slash-terminated candidate against the
slash-terminated root by prefix. -/
theorem validpath_id_eval (root x : List Char) (hroot : root.getLast? ≠ some '/')
    (hx : x.getLast? ≠ some '/') :
    validpath id root x
      = decide ((x ++ ['/']).take (root.length + 1) = root ++ ['/']) := by
  rw [validpath]
  simp only [id_eq]
  rw [if_pos hroot, if_pos hx, List.length_append, List.length_singleton]

/-- Same evaluation when the candidate already ends with the separator. -/
theorem validpath_id_eval_slashEnd (root x : List Char)
    (hroot : root.getLast? ≠ some '/') (hx : x.getLast? = some '/') :
    validpath id root x = decide (x.take (root.length + 1) = root ++ ['/']) := by
  rw [validpath]
  simp only [id_eq]
  rw [if_pos hroot, if_neg (not_not_intro hx), List.length_append, List.length_singleton]

/-- C6 amended: assuming no symbolic links (realpath is the identity) and a
normalized absolute session root with a single leading slash, for every
client path p whose translation does not land on the root directory itself,
validpath accepts ftp2fs(p) exactly when fs2ftp maps it to something other
than the virtual root slash.  The original claim's guard p different from
the slash is not enough: p = dot translates to the root itself, where
validpath accepts but fs2ftp yields the slash. -/
theorem c6_validpath_iff_fs2ftp_ne_root (root cwd p : List Char)
    (hroot1 : pyNormpath root = root)
    (hroot2 : root.take 1 = ['/'])
    (hroot3 : root.take 2 ≠ ['/', '/'])
    (hne : ftp2fs root cwd p ≠ root) :
    (validpath id root (ftp2fs root cwd p) = true
      ↔ fs2ftp id root (ftp2fs root cwd p) ≠ "/".toList) := by
  obtain ⟨cs, hcs, hx⟩ := ftp2fs_form root cwd p hroot1 hroot2 hroot3
  set x := ftp2fs root cwd p with hxdef
  have hxabs : isabs x = true := by rw [hx]; rfl
  have hfix : pyNormpath x = x := by rw [hx]; exact pyNormpath_fix cs hcs
  have hfs : fs2ftp id root x
      = if ¬ validpath id root x = true then ['/']
        else if ¬ ((x.drop root.length).take 1 = ['/']) then '/' :: x.drop root.length
          else x.drop root.length := by
    rw [fs2ftp, if_pos hxabs, hfix, map_sep_id]
  by_cases hv : validpath id root x = true
  · rw [hfs, if_neg (not_not_intro hv), show ("/" : String).toList = ['/'] from rfl]
    refine ⟨fun _ => ?_, fun _ => hv⟩
    by_cases hr : root = ['/']
    · subst hr
      have hcsne : cs ≠ [] := by
        rintro rfl
        exact hne (by rw [hx]; rfl)
      have hjne : joinChar '/' cs ≠ [] :=
        joinChar_ne_nil '/' cs hcsne (fun e he => (hcs e he).1)
      have hhead := joinChar_head_ne_sep cs hcs
      simp only [List.length_singleton]
      have htake : ¬ ((x.drop 1).take 1 = ['/']) := by
        rw [hx]
        simp only [List.drop_succ_cons, List.drop_zero]
        rcases hj : joinChar '/' cs with _ | ⟨y, ys⟩
        · exact absurd hj hjne
        · rw [hj] at hhead
          have hy : y ≠ '/' := by simpa using hhead
          simp [List.take_cons, hy]
      rw [if_pos htake]
      intro hcontra
      have hdropnil : x.drop 1 = [] := by simpa using hcontra
      rw [hx] at hdropnil
      simp only [List.drop_succ_cons, List.drop_zero] at hdropnil
      exact hjne hdropnil
    · obtain ⟨csr, hcsr, hre⟩ := pyNormpath_abs_form root hroot2 hroot3
      rw [hroot1] at hre
      have hcsrne : csr ≠ [] := by
        rintro rfl
        exact hr (by rw [hre]; rfl)
      have hrootlast : root.getLast? ≠ some '/' := by
        rw [hre]
        exact normAbs_getLast_ne csr hcsr hcsrne
      have hrootlen : 1 ≤ root.length := by
        rw [hre]
        simp
      rcases cs with _ | ⟨c0, cs0⟩
      · exfalso
        have hx' : x = ['/'] := by rw [hx]; rfl
        rw [hx', validpath_id_eval_slashEnd root ['/'] hrootlast rfl] at hv
        have heq := of_decide_eq_true hv
        rw [List.take_of_length_le (by simp)] at heq
        have hlen := congrArg List.length heq
        rw [List.length_append, List.length_singleton] at hlen
        omega
      · have hxlast : x.getLast? ≠ some '/' := by
          rw [hx]
          exact normAbs_getLast_ne (c0 :: cs0) hcs (by simp)
        rw [validpath_id_eval root x hrootlast hxlast] at hv
        have heq := of_decide_eq_true hv
        have hge : root.length + 1 ≤ x.length := by
          by_contra hlt
          push_neg at hlt
          have hxall : (x ++ ['/']).take (root.length + 1) = x ++ ['/'] :=
            List.take_of_length_le
              (by rw [List.length_append, List.length_singleton]; omega)
          rw [hxall] at heq
          have hlen := congrArg List.length heq
          rw [List.length_append, List.length_append, List.length_singleton] at hlen
          obtain ⟨hxr, -⟩ := List.append_inj heq (by omega)
          exact hne hxr
        rw [List.take_append_of_le_length hge] at heq
        have hdecomp : x = root ++ '/' :: x.drop (root.length + 1) := by
          conv_lhs => rw [← List.take_append_drop (root.length + 1) x]
          rw [heq, List.append_assoc, List.singleton_append]
        have hdropn : x.drop root.length = '/' :: x.drop (root.length + 1) := by
          conv_lhs => rw [hdecomp]
          exact List.drop_left root _
        rw [if_neg (show ¬ ¬ ((x.drop root.length).take 1 = ['/']) from by
          rw [hdropn]; simp)]
        rw [hdropn]
        intro hcontra
        have hdnil : x.drop (root.length + 1) = [] := by simpa using hcontra
        rw [hdnil] at hdecomp
        have hxl : x.getLast? = some '/' := by
          rw [hdecomp]
          exact List.getLast?_concat root
        exact hxlast hxl
  · rw [hfs, if_pos hv, show ("/" : String).toList = ['/'] from rfl]
    simp [hv]

/-- C6 witness: with root /home/user, cwd the slash and client path a, the
translation lands strictly inside the root, the amended theorem applies, and
fs2ftp indeed differs from the virtual root slash. -/
theorem c6_validpath_iff_fs2ftp_ne_root_witness :
    fs2ftp id ("/home/user".toList)
      (ftp2fs ("/home/user".toList) ("/".toList) ("a".toList)) ≠ "/".toList := by
  have h := c6_validpath_iff_fs2ftp_ne_root ("/home/user".toList) ("/".toList)
    ("a".toList) (by rfl) (by rfl) (by decide) (by decide)
  exact h.mp (by rfl)

end Ftpd
